import Mathlib

/-!
Shallow embedding of the archive-to-text flattening pipeline of
`src/app.py` (`process_zip_to_llm_txt` and its helpers), together with
theorems settling the specification claims about it.

Python machine-level details are modelled as follows:
* byte contents are `List Nat` (each element one byte of the file);
* Python strings are Lean `String`s; `str.lower`, `str.endswith`,
  `str.splitlines`, slicing and `'\n'.join` are modelled by explicit
  executable functions over the character list (`pyLower`, `pyEndsWith`,
  `pySplitlines`, `List.take`/`List.drop`/`pyTailSlice`,
  `String.intercalate`);
* the `chardet.detect` statistical detector and the codec table for
  non-UTF-8 encodings are external libraries: they enter the model as
  opaque-by-quantification parameters (`detect`, `decodeOther`) of the
  pipeline, while the UTF-8 codec itself (both strict and
  `errors='replace'`) is implemented concretely;
* per-file exceptions are modelled by `Except`: `zip_ref.read` may fail
  (`Except String`), a codec decode may fail (`Option`, `none` standing
  for `UnicodeDecodeError`); every other operation in the loop body is
  total, as in the source.
-/

/-- Models Python `str.lower()` (restricted to the ASCII mapping performed
by `Char.toLower`; all paths and suffixes appearing in the program's
configuration are ASCII). From `f.lower()` at src/app.py:189. -/
def pyLower (s : String) : String :=
  String.mk (s.data.map Char.toLower)

/-- Models Python `str.endswith(suffix)`: literal suffix test on the
character sequence. From `f.lower().endswith(ext)` at src/app.py:189. -/
def pyEndsWith (s suffix : String) : Bool :=
  suffix.data.isSuffixOf s.data

/-- Exclusion test from src/app.py:189/194:
`any(f.lower().endswith(ext) for ext in exclude_extensions)`.
Note the path is lower-cased but each configured suffix is used verbatim. -/
def isExcluded (excludeExtensions : List String) (f : String) : Bool :=
  excludeExtensions.any fun ext => pyEndsWith (pyLower f) ext

/-- Default exclusion list, `get_default_extensions` (src/app.py:24). -/
def get_default_extensions : List String :=
  [".jpg", ".jpeg", ".png", ".gif", ".bmp", ".tiff", ".ico",
   ".svg", ".webp", ".heic", ".raw", ".cr2", ".nef", ".psd",
   ".ai", ".pdf", ".mp3", ".mp4", ".avi", ".mov", ".wmv",
   ".flv", ".mkv", ".wav", ".ogg", ".zip", ".rar", ".7z",
   ".tar", ".gz", ".exe", ".dll", ".so", ".dylib", ".class"]

/-- Regular expressions as compiled by `re.compile`, abstracting the
source-string syntax into an AST: `cls p` is a single-character matcher
(covering literal characters, classes and `.`), the rest are the standard
combinators.  The Python grouping parentheses `(pattern)` added at
src/app.py:239 have no semantic content and are not represented. -/
inductive Regex where
  | emp : Regex
  | eps : Regex
  | cls : (Char → Bool) → Regex
  | cat : Regex → Regex → Regex
  | alt : Regex → Regex → Regex
  | star : Regex → Regex

/-- Nullability: does the regex accept the empty string. -/
def Regex.nullable : Regex → Bool
  | .emp => false
  | .eps => true
  | .cls _ => false
  | .cat a b => a.nullable && b.nullable
  | .alt a b => a.nullable || b.nullable
  | .star _ => true

/-- Brzozowski derivative of a regex by one character. -/
def Regex.deriv : Regex → Char → Regex
  | .emp, _ => .emp
  | .eps, _ => .emp
  | .cls p, c => if p c then .eps else .emp
  | .cat a b, c =>
      if a.nullable then .alt (.cat (a.deriv c) b) (b.deriv c)
      else .cat (a.deriv c) b
  | .alt a b, c => .alt (a.deriv c) (b.deriv c)
  | .star r, c => .cat (r.deriv c) (.star r)

/-- Truth value of Python `re.match(regex, line)`: the regex matches some
(possibly empty) prefix of the character sequence, i.e. anchored at
position 0 and not a substring search. -/
def Regex.matchPre (r : Regex) : List Char → Bool
  | [] => r.nullable
  | c :: cs => r.nullable || (r.deriv c).matchPre cs

/-- Truthiness of `regex.match(line)` on a Lean string. -/
def reMatch (r : Regex) (line : String) : Bool :=
  r.matchPre line.data

/-- Combination `'|'.join(f'({pattern})' for pattern in filter_patterns)`
from src/app.py:239, i.e. the left-nested alternation of the configured
patterns (the empty case never reaches `re.compile`, guarded at 237). -/
def combinePatterns : List Regex → Regex
  | [] => Regex.emp
  | p :: ps => ps.foldl Regex.alt p

/-- Line filtering from src/app.py:244:
`[line for line in lines if not regex.match(line)]`. -/
def filterLines (ps : List Regex) (lines : List String) : List String :=
  lines.filter fun line => !(reMatch (combinePatterns ps) line)

/-- Characters treated as line boundaries by Python `str.splitlines`. -/
def isLineBreak (c : Char) : Bool :=
  c = '\n' || c = '\r' || c.val = 0x0b || c.val = 0x0c ||
  c.val = 0x1c || c.val = 0x1d || c.val = 0x1e || c.val = 0x85 ||
  c.val = 0x2028 || c.val = 0x2029

/-- Splits a character list at every line boundary, `"\r\n"` counting as
one boundary: the result has one segment per boundary plus a final
segment after the last boundary (so the final segment is empty exactly
when the input is empty or ends with a boundary). -/
def splitBreaks : List Char → List (List Char)
  | [] => [[]]
  | '\r' :: '\n' :: rest => [] :: splitBreaks rest
  | c :: rest =>
    if isLineBreak c then [] :: splitBreaks rest
    else
      match splitBreaks rest with
      | [] => [[c]]
      | l :: ls => (c :: l) :: ls

/-- Models Python `str.splitlines()` (src/app.py:243): splits at line
boundaries, `\r\n` counting as a single boundary, with no empty trailing
line for a terminated string and `[]` for the empty string. -/
def pySplitlines (s : String) : List String :=
  let segs := splitBreaks s.data
  let segs2 := if segs.getLast? = some [] then segs.dropLast else segs
  segs2.map fun l => String.mk l

/-- Models the Python slice `l[-e:]` (src/app.py:260/263).  Python's
negative-index slicing has `l[-0:] = l[0:] = l`, so for `e = 0` this is
the whole list, not the empty list; for `e > 0` it is the last
`min e (length l)` elements. -/
def pyTailSlice (l : List α) (e : Nat) : List α :=
  if e = 0 then l else l.drop (l.length - e)

/-- Head/middle/tail sampling from src/app.py:248-263, reached when the
filtered line count exceeds `max_lines_per_file = L`:
`beginning = end = L // 3`, `middle = L - beginning - end`, middle slice
starting at `(n - middle) // 2`, tail slice `filtered_lines[-end:]`. -/
def sampleLines (L : Nat) (filtered : List String) : List String :=
  let beginning := L / 3
  let endCount := L / 3
  let middle := L - beginning - endCount
  if middle > 0 then
    let middleStart := (filtered.length - middle) / 2
    filtered.take beginning ++ ["..."] ++
      (filtered.drop middleStart).take middle ++ ["..."] ++
      pyTailSlice filtered endCount
  else
    filtered.take beginning ++ ["..."] ++ pyTailSlice filtered endCount

/-- Replacement character U+FFFD substituted by `errors='replace'`. -/
def replChar : Char := Char.ofNat 0xFFFD

/-- Continuation-byte test `0x80 ≤ b ≤ 0xBF`. -/
def isCont (b : Nat) : Bool := 0x80 ≤ b && b ≤ 0xBF

/-- Admissible second byte of a three-byte sequence with leading byte `b`
(tight ranges excluding overlong encodings and surrogates, as CPython's
UTF-8 codec enforces). -/
def isCont2of3 (b b2 : Nat) : Bool :=
  if b = 0xE0 then 0xA0 ≤ b2 && b2 ≤ 0xBF
  else if b = 0xED then 0x80 ≤ b2 && b2 ≤ 0x9F
  else isCont b2

/-- Admissible second byte of a four-byte sequence with leading byte `b`
(tight ranges excluding overlong encodings and code points above
U+10FFFF). -/
def isCont2of4 (b b2 : Nat) : Bool :=
  if b = 0xF0 then 0x90 ≤ b2 && b2 ≤ 0xBF
  else if b = 0xF4 then 0x80 ≤ b2 && b2 ≤ 0x8F
  else isCont b2

/-- Decodes one UTF-8 sequence whose leading byte is `b` and whose
following bytes start `bs`: returns `(some c, k)` when a well-formed
sequence yields the code point `c` after consuming `k` further bytes of
`bs`, and `(none, k)` when the sequence is ill-formed after its maximal
valid subpart of `k + 1` bytes (the replacement then resumes at the
first offending byte). -/
def utf8Step (b : Nat) (bs : List Nat) : Option Char × Nat :=
  if b ≤ 0x7F then (some (Char.ofNat b), 0)
  else if 0xC2 ≤ b && b ≤ 0xDF then
    match bs with
    | [] => (none, 0)
    | b2 :: _ =>
      if isCont b2 then (some (Char.ofNat ((b - 0xC0) * 0x40 + (b2 - 0x80))), 1)
      else (none, 0)
  else if 0xE0 ≤ b && b ≤ 0xEF then
    match bs with
    | [] => (none, 0)
    | b2 :: bs2 =>
      if isCont2of3 b b2 then
        match bs2 with
        | [] => (none, 1)
        | b3 :: _ =>
          if isCont b3 then
            (some (Char.ofNat (((b - 0xE0) * 0x40 + (b2 - 0x80)) * 0x40 + (b3 - 0x80))), 2)
          else (none, 1)
      else (none, 0)
  else if 0xF0 ≤ b && b ≤ 0xF4 then
    match bs with
    | [] => (none, 0)
    | b2 :: bs2 =>
      if isCont2of4 b b2 then
        match bs2 with
        | [] => (none, 1)
        | b3 :: bs3 =>
          if isCont b3 then
            match bs3 with
            | [] => (none, 2)
            | b4 :: _ =>
              if isCont b4 then
                (some (Char.ofNat ((((b - 0xF0) * 0x40 + (b2 - 0x80)) * 0x40 +
                  (b3 - 0x80)) * 0x40 + (b4 - 0x80))), 3)
              else (none, 2)
          else (none, 1)
      else (none, 0)
  else (none, 0)

/-- Worker for `utf8DecodeR`, structurally recursive on a fuel that
bounds the number of decoded characters (each step consumes at least one
byte, so the byte count is enough fuel; the fuel-exhausted arm is
unreachable from `utf8DecodeR`). -/
def utf8DecodeRAux : Nat → List Nat → List Char
  | _, [] => []
  | 0, _ :: _ => []
  | fuel + 1, b :: bs =>
    match utf8Step b bs with
    | (some c, k) => c :: utf8DecodeRAux fuel (bs.drop k)
    | (none, k) => replChar :: utf8DecodeRAux fuel (bs.drop k)

/-- Models CPython `bytes.decode('utf-8', errors='replace')`
(src/app.py:234): total UTF-8 decoding that substitutes one U+FFFD for
each maximal invalid subpart and never fails. -/
def utf8DecodeR (bs : List Nat) : List Char :=
  utf8DecodeRAux bs.length bs

/-- Worker for `utf8Valid`, with the same fuel discipline as
`utf8DecodeRAux`. -/
def utf8ValidAux : Nat → List Nat → Bool
  | _, [] => true
  | 0, _ :: _ => false
  | fuel + 1, b :: bs =>
    match utf8Step b bs with
    | (some _, k) => utf8ValidAux fuel (bs.drop k)
    | (none, _) => false

/-- Validity test following the same steps as `utf8DecodeR`: `true` iff
the byte sequence is well-formed UTF-8, i.e. iff CPython
`bytes.decode('utf-8')` (strict) succeeds. -/
def utf8Valid (bs : List Nat) : Bool :=
  utf8ValidAux bs.length bs

/-- Models strict CPython `bytes.decode('utf-8')` (the default codec):
succeeds with the decoded string exactly on well-formed UTF-8 input,
raising `UnicodeDecodeError` (here `none`) otherwise.  On success it
agrees with the `errors='replace'` decoding, which then replaces
nothing. -/
def utf8Strict (bs : List Nat) : Option String :=
  if utf8Valid bs then some (String.mk (utf8DecodeR bs)) else none

/-- Models Python `content.decode(encoding)` (src/app.py:231): the UTF-8
codec is concrete; every other codec the `chardet` guess may name is an
external-library decode, abstracted as the parameter `decodeOther`
(`none` standing for `UnicodeDecodeError`). -/
def pyDecode (decodeOther : String → List Nat → Option String)
    (enc : String) (bs : List Nat) : Option String :=
  if enc = "utf-8" then utf8Strict bs else decodeOther enc bs

/-- Decoding stage, src/app.py:227-234: run the detector to get a guessed
encoding (`'utf-8'` when the detector reports none), try that codec, and
on `UnicodeDecodeError` fall back to UTF-8 decoding with replacement,
which is total.  `detect` abstracts `chardet.detect` (an external
statistical model). -/
def decodeStage (detect : List Nat → Option String)
    (decodeOther : String → List Nat → Option String)
    (content : List Nat) : String :=
  let enc :=
    match detect content with
    | some e => e
    | none => "utf-8"
  match pyDecode decodeOther enc content with
  | some s => s
  | none => String.mk (utf8DecodeR content)

/-- Per-file filtering and sampling stage, src/app.py:237-267.  The whole
stage (line split, regex filter, sampling, rejoin) is guarded by
`if filter_patterns and len(filter_patterns) > 0:`; with an empty pattern
sequence the decoded content passes through untouched.  The sampling
guard is `if max_lines_per_file and len(filtered_lines) > max_lines_per_file`
(Python truthiness: a cap of `0`/`None` is no cap). -/
def processContent (ps : List Regex) (maxLines : Option Nat)
    (decoded : String) : String :=
  if ps.isEmpty then decoded
  else
    let lines := pySplitlines decoded
    let filtered := filterLines ps lines
    let filtered2 :=
      match maxLines with
      | some L => if L ≠ 0 ∧ filtered.length > L then sampleLines L filtered else filtered
      | none => filtered
    String.intercalate "\n" filtered2

/-- External collaborators of one run: the archive index and byte reader
(`zipfile.ZipFile`: `namelist()` and `read`, which may raise — `Except`),
the `chardet.detect` guess and the non-UTF-8 codec table.  Directories
are the names ending in `'/'`, as tested in the source. -/
structure Env where
  names : List String
  read : String → Except String (List Nat)
  detect : List Nat → Option String
  decodeOther : String → List Nat → Option String

/-- Configuration of `process_zip_to_llm_txt` after the `None` defaults
have been filled in by the caller.  `maxChars` models the Python
`max_chars` with its truthiness (`none` or `some 0` mean no budget);
patterns enter as compiled `Regex` ASTs. -/
structure Config where
  maxChars : Option Int
  excludeExtensions : List String
  filterPatterns : List Regex
  maxLines : Option Nat

/-- Run statistics dictionary built by `process_zip_to_llm_txt`. -/
structure Stats where
  total_files : Nat
  excluded_files : Nat
  processed_files : Nat
  errors : List String
  total_chars : Nat
  truncated : Bool

/-- Mutable state of the per-file loop (src/app.py:207-209 and the
`stats` entries it writes).  The last two fields are ghost fields for
specification only — they mirror no Python variable: `appendedLens`
records `content_length` of each fully appended file, `processedChars`
counts every header/body character actually placed into `output`
(excluding the `"\n\n"` separators and the notice strings). -/
structure LoopState where
  output : String
  totalChars : Nat
  truncated : Bool
  errors : List String
  appendedLens : List Nat
  processedChars : Nat

/-- Initial loop state. -/
def initState : LoopState :=
  { output := "", totalChars := 0, truncated := false, errors := [],
    appendedLens := [], processedChars := 0 }

/-- Literal truncation notice appended at src/app.py:280. -/
def truncNotice : String := "\n\n[Content truncated due to size limit]\n"

/-- Literal omission notice appended at src/app.py:283. -/
def omitNotice : String := "\n\n[Remaining files omitted due to size limit]\n"

/-- Line of 48 `'='` characters used by the header. -/
def eqLine : String := String.mk (List.replicate 48 '=')

/-- Per-file header from src/app.py:270:
`f"{'=' * 48}\nFile: {file_path}\n{'=' * 48}\n"`. -/
def mkHeader (path : String) : String :=
  eqLine ++ "\nFile: " ++ path ++ "\n" ++ eqLine ++ "\n"

/-- Normal append of one file (src/app.py:289-293): add
`header + body + "\n\n"` to the output and `content_length` to the
running total (the separator is not counted). -/
def appendNormal (s : LoopState) (header body : String) : LoopState :=
  { s with
    output := s.output ++ header ++ body ++ "\n\n",
    totalChars := s.totalChars + (header.length + body.length),
    appendedLens := s.appendedLens ++ [header.length + body.length],
    processedChars := s.processedChars + (header.length + body.length) }

/-- Per-file loop of src/app.py:216-297 (progress-bar calls omitted: they
render UI and touch no processing state).  Each file is read — a raised
read error is recorded and skipped — then decoded, filtered/sampled, and
appended under the `max_chars` budget; exhausting the budget emits a
truncation or omission notice and `break`s out of the loop. -/
def processFiles (env : Env) (cfg : Config) : List String → LoopState → LoopState
  | [], s => s
  | f :: rest, s =>
    match env.read f with
    | .error e =>
      processFiles env cfg rest
        { s with errors := s.errors ++ ["Error processing " ++ f ++ ": " ++ e] }
    | .ok content =>
      let decoded := decodeStage env.detect env.decodeOther content
      let body := processContent cfg.filterPatterns cfg.maxLines decoded
      let header := mkHeader f
      match cfg.maxChars with
      | some m =>
        if m ≠ 0 ∧ ((s.totalChars + (header.length + body.length) : Nat) : Int) > m then
          let remaining : Int := m - (s.totalChars : Int)
          if remaining > (header.length : Int) then
            { s with
              output := s.output ++ header ++
                body.take (remaining - (header.length : Int)).toNat ++ truncNotice,
              truncated := true,
              processedChars := s.processedChars + header.length +
                (remaining - (header.length : Int)).toNat }
          else
            { s with output := s.output ++ omitNotice, truncated := true }
        else
          processFiles env cfg rest (appendNormal s header body)
      | none =>
        processFiles env cfg rest (appendNormal s header body)

/-- Lexicographic character-code-point order on strings, the order used
by Python `sorted` on `str`. -/
def charListLe : List Char → List Char → Bool
  | [], _ => true
  | _ :: _, [] => false
  | a :: as, b :: bs =>
    if a.val < b.val then true
    else if b.val < a.val then false
    else charListLe as bs

/-- String comparison feeding the sort. -/
def strLe (a b : String) : Bool := charListLe a.data b.data

/-- Stable insertion used by `sortStrings`. -/
def insertSorted (x : String) : List String → List String
  | [] => [x]
  | y :: ys => if strLe x y then x :: y :: ys else y :: insertSorted x ys

/-- Models Python `sorted` on a list of strings (src/app.py:187): a
stable sort by the code-point lexicographic order. -/
def sortStrings : List String → List String
  | [] => []
  | x :: xs => insertSorted x (sortStrings xs)

/-- Non-directory entries of the archive, src/app.py:193:
`[f for f in zip_ref.namelist() if not f.endswith('/')]`. -/
def allFilesOf (env : Env) : List String :=
  env.names.filter fun f => !(pyEndsWith f "/")

/-- Excluded entries, src/app.py:194: the non-directory entries whose
lower-cased path ends with a configured suffix. -/
def excludedFilesOf (env : Env) (cfg : Config) : List String :=
  (allFilesOf env).filter fun f => isExcluded cfg.excludeExtensions f

/-- Sorted processing order, src/app.py:187-190: the non-directory,
non-excluded entries in lexicographic path order. -/
def fileListOf (env : Env) (cfg : Config) : List String :=
  sortStrings (env.names.filter fun f =>
    !(pyEndsWith f "/") && !(isExcluded cfg.excludeExtensions f))

/-- Final loop state of a run. -/
def runState (env : Env) (cfg : Config) : LoopState :=
  processFiles env cfg (fileListOf env cfg) initState

/-- Embedding of `process_zip_to_llm_txt` (src/app.py:161-306) on the
success path: the `(status, llm_text, stats)` triple returned at line
306.  The `total_files`/`excluded_files`/`processed_files` statistics
are fixed before the loop (lines 196-204); `errors`, `total_chars` and
`truncated` come from the loop.  The missing-upload and
corrupt-container early returns (lines 180-181, 308-309) return no
statistics record and are outside this embedding. -/
def process_zip_to_llm_txt (env : Env) (cfg : Config) : Bool × String × Stats :=
  let final := runState env cfg
  (true, final.output,
    { total_files := (allFilesOf env).length,
      excluded_files := (excludedFilesOf env cfg).length,
      processed_files := (fileListOf env cfg).length,
      errors := final.errors,
      total_chars := final.totalChars,
      truncated := final.truncated })

theorem insertSorted_length (x : String) :
    ∀ l : List String, (insertSorted x l).length = l.length + 1
  | [] => by simp [insertSorted]
  | y :: ys => by
    simp only [insertSorted]
    split
    · simp
    · simp [insertSorted_length x ys]

theorem sortStrings_length : ∀ l : List String, (sortStrings l).length = l.length
  | [] => rfl
  | x :: xs => by
    simp [sortStrings, insertSorted_length, sortStrings_length xs]

/-- C1: for every archive processed to completion, the returned
statistics satisfy `excluded_files + processed_files = total_files`,
where `total_files` counts the non-directory entries, `excluded_files`
those whose lower-cased path ends with a configured suffix and
`processed_files` the rest; the buckets are fixed before the loop, so
per-file decode/read errors cannot change them. -/
theorem stats_partition (env : Env) (cfg : Config) :
    (process_zip_to_llm_txt env cfg).2.2.excluded_files +
      (process_zip_to_llm_txt env cfg).2.2.processed_files =
      (process_zip_to_llm_txt env cfg).2.2.total_files := by
  show (excludedFilesOf env cfg).length + (fileListOf env cfg).length =
    (allFilesOf env).length
  rw [fileListOf, sortStrings_length]
  have h : env.names.filter (fun f =>
        !(pyEndsWith f "/") && !(isExcluded cfg.excludeExtensions f)) =
      (allFilesOf env).filter (fun f => !(isExcluded cfg.excludeExtensions f)) := by
    rw [allFilesOf, List.filter_filter]
    exact List.filter_congr fun a _ => Bool.and_comm _ _
  rw [h, excludedFilesOf]
  exact (List.length_eq_length_filter_add
    (fun f => isExcluded cfg.excludeExtensions f)).symm

/-- C2: with a per-file cap `L = 2` and ten filtered lines the claimed
4-element sample `["..."] ++ middle ++ ["..."]` is not what the code
produces: `end = 2 // 3 = 0` makes the tail slice `filtered_lines[-0:]`
the whole list, so the sample is those 4 lines followed by all 10
original lines (14 lines in total), contradicting both the claimed
structure and the purpose of the cap. -/
theorem sample_L2_tail_slice_quirk :
    sampleLines 2 ["l0", "l1", "l2", "l3", "l4", "l5", "l6", "l7", "l8", "l9"] =
      ["...", "l4", "l5", "..."] ++
        ["l0", "l1", "l2", "l3", "l4", "l5", "l6", "l7", "l8", "l9"] ∧
    (sampleLines 2 ["l0", "l1", "l2", "l3", "l4", "l5", "l6", "l7", "l8", "l9"]).length = 14 ∧
    sampleLines 2 ["l0", "l1", "l2", "l3", "l4", "l5", "l6", "l7", "l8", "l9"] ≠
      ["...", "l4", "l5", "..."] :=
  ⟨by decide, by decide, by decide⟩

/-- C4 counterexample: the claim predicts exclusion whenever the
lower-cased path ends with the lower-cased suffix, but the code never
lower-cases the suffix: with configured suffix `".PNG"` the path
`"a.png"` is not excluded although its lower-cased form ends with the
lower-cased suffix. -/
theorem exclusion_not_suffix_case_insensitive :
    isExcluded [".PNG"] "a.png" = false ∧
    pyEndsWith (pyLower "a.png") (pyLower ".PNG") = true :=
  ⟨by decide, by decide⟩

/-- C4 amended: an entry is excluded exactly when its lower-cased path
ends with some configured suffix taken verbatim (not lower-cased); when
every configured suffix is already lower-case — as in the default
configuration — this coincides with the claimed case-insensitive
match. -/
theorem exclusion_suffix_semantics (exts : List String) (f : String) :
    (isExcluded exts f = true ↔ ∃ e ∈ exts, pyEndsWith (pyLower f) e = true) ∧
    ((∀ e ∈ exts, pyLower e = e) →
      (isExcluded exts f = true ↔
        ∃ e ∈ exts, pyEndsWith (pyLower f) (pyLower e) = true)) := by
  constructor
  · simp [isExcluded]
  · intro h
    rw [isExcluded, List.any_eq_true]
    constructor
    · rintro ⟨e, he, hp⟩
      exact ⟨e, he, by rw [h e he]; exact hp⟩
    · rintro ⟨e, he, hp⟩
      exact ⟨e, he, by rw [h e he] at hp; exact hp⟩

theorem exclusion_suffix_semantics_witness :
    (∀ e ∈ [".png"], pyLower e = e) ∧
    (isExcluded [".png"] "A.PNG" = true ↔
      ∃ e ∈ [".png"], pyEndsWith (pyLower "A.PNG") (pyLower e) = true) :=
  ⟨by decide, (exclusion_suffix_semantics [".png"] "A.PNG").2 (by decide)⟩

/-- C5 counterexample: the per-file line cap only acts inside the
`if filter_patterns ...` block, so with an empty pattern sequence a file
whose 3 lines exceed the cap `L = 1` passes through unsampled (and is
not equal to what sampling would have produced). -/
theorem sampling_skipped_with_empty_patterns :
    processContent [] (some 1) "a\nb\nc" = "a\nb\nc" ∧
    (pySplitlines "a\nb\nc").length = 3 ∧
    "a\nb\nc" ≠ String.intercalate "\n" (sampleLines 1 (pySplitlines "a\nb\nc")) :=
  ⟨rfl, by decide, by decide⟩

/-- C5 amended: when the configured pattern sequence is non-empty and a
nonzero per-file cap `L` is configured, every file whose filtered line
count exceeds `L` has its line list replaced by the head/middle/tail
sample; with an empty pattern sequence the whole filter-and-sample stage
is skipped and the decoded content passes through unchanged. -/
theorem sampling_applies_with_nonempty_patterns (ps : List Regex) (L : Nat)
    (decoded : String) (fl : List String) (hps : ps ≠ []) (hL : L ≠ 0)
    (hfl : filterLines ps (pySplitlines decoded) = fl) (hlen : L < fl.length) :
    processContent ps (some L) decoded =
      String.intercalate "\n" (sampleLines L fl) := by
  simp only [processContent]
  rw [if_neg (by simp [hps])]
  simp only [hfl]
  rw [if_pos ⟨hL, hlen⟩]

theorem sampling_applies_witness :
    (([Regex.cls fun c => c = '#'] : List Regex) ≠ [] ∧ (1 : Nat) ≠ 0 ∧
      filterLines [Regex.cls fun c => c = '#'] (pySplitlines "a\nb\nc") =
        ["a", "b", "c"] ∧
      1 < (["a", "b", "c"] : List String).length) ∧
    processContent [Regex.cls fun c => c = '#'] (some 1) "a\nb\nc" =
      String.intercalate "\n" (sampleLines 1 ["a", "b", "c"]) :=
  ⟨⟨List.cons_ne_nil _ _, by decide, by decide, by decide⟩,
   sampling_applies_with_nonempty_patterns _ 1 _ _ (List.cons_ne_nil _ _)
     (by decide) (by decide) (by decide)⟩

/-- C6: for a file with exactly 30 filtered lines and cap `L = 9` the
sample is 3 beginning lines, one elision marker, the 3 middle lines
starting at index `(30 - 3) / 2 = 13`, a second marker, and the last 3
lines — 11 lines with exactly 2 markers. -/
theorem sample_30_lines_L9 (lines : List String) (h : lines.length = 30) :
    sampleLines 9 lines =
      lines.take 3 ++ ["..."] ++ (lines.drop 13).take 3 ++ ["..."] ++
        lines.drop 27 ∧
    (sampleLines 9 lines).length = 11 := by
  have heq : sampleLines 9 lines =
      lines.take 3 ++ ["..."] ++ (lines.drop 13).take 3 ++ ["..."] ++
        lines.drop 27 := by
    simp only [sampleLines, pyTailSlice, h]
    norm_num
  refine ⟨heq, ?_⟩
  rw [heq]
  simp [List.length_append, List.length_take, List.length_drop, h]

theorem sample_30_lines_L9_witness :
    (List.replicate 30 "x").length = 30 ∧
    (sampleLines 9 (List.replicate 30 "x")).length = 11 :=
  ⟨by decide, (sample_30_lines_L9 _ (by decide)).2⟩

theorem matchPre_alt (a b : Regex) :
    ∀ cs, (Regex.alt a b).matchPre cs = (a.matchPre cs || b.matchPre cs)
  | [] => rfl
  | c :: cs => by
    simp only [Regex.matchPre, Regex.nullable, Regex.deriv]
    rw [matchPre_alt _ _ cs]
    cases a.nullable <;> cases b.nullable <;>
      simp [Bool.or_assoc, Bool.or_comm, Bool.or_left_comm]

theorem matchPre_foldl_alt (ps : List Regex) :
    ∀ (a : Regex) (cs : List Char),
      (ps.foldl Regex.alt a).matchPre cs =
        (a.matchPre cs || ps.any fun p => p.matchPre cs) := by
  induction ps with
  | nil => intro a cs; simp
  | cons p ps ih =>
    intro a cs
    simp only [List.foldl_cons, ih, matchPre_alt, List.any_cons]
    cases a.matchPre cs <;> simp [Bool.or_assoc]

/-- C9: for every non-empty pattern sequence, a line is dropped exactly
when some configured pattern matches starting at position 0 of that line
(the combined alternation matches iff one of the patterns does, and the
match is anchored-prefix by construction of `reMatch`), and the
surviving lines keep their original relative order. -/
theorem line_filter_anchored_or (ps : List Regex) (lines : List String)
    (hps : ps ≠ []) :
    filterLines ps lines =
      lines.filter (fun l => !(ps.any fun p => reMatch p l)) ∧
    (filterLines ps lines).Sublist lines := by
  constructor
  · cases ps with
    | nil => exact absurd rfl hps
    | cons p ps' =>
      rw [filterLines]
      refine List.filter_congr fun l _ => ?_
      simp only [combinePatterns, reMatch, matchPre_foldl_alt, List.any_cons]
  · exact List.filter_sublist _

theorem line_filter_witness :
    (([Regex.cls fun c => c = '#'] : List Regex) ≠ []) ∧
    (filterLines [Regex.cls fun c => c = '#'] ["# x", "a"] =
      (["# x", "a"] : List String).filter
        (fun l => !([Regex.cls fun c => c = '#'].any fun p => reMatch p l)) ∧
    (filterLines [Regex.cls fun c => c = '#'] ["# x", "a"]).Sublist
      ["# x", "a"]) :=
  ⟨List.cons_ne_nil _ _, line_filter_anchored_or _ _ (List.cons_ne_nil _ _)⟩

/-- C7: the decoding stage always produces some string and never raises:
when the detector guesses an encoding that encoding is tried and its
successful result returned; on decode failure (`UnicodeDecodeError`) or
when the detector reports no encoding, the bytes are decoded as UTF-8
with replacement characters substituted for undecodable sequences (with
no guess the strict UTF-8 attempt either fails into the replacing
fallback or succeeds with the identical replacement-free result). -/
theorem decode_stage_total_and_fallback (detect : List Nat → Option String)
    (decodeOther : String → List Nat → Option String) (content : List Nat) :
    (∃ s, decodeStage detect decodeOther content = s) ∧
    (∀ e s, detect content = some e → pyDecode decodeOther e content = some s →
      decodeStage detect decodeOther content = s) ∧
    (∀ e, detect content = some e → pyDecode decodeOther e content = none →
      decodeStage detect decodeOther content = String.mk (utf8DecodeR content)) ∧
    (detect content = none →
      decodeStage detect decodeOther content = String.mk (utf8DecodeR content)) := by
  refine ⟨⟨_, rfl⟩, ?_, ?_, ?_⟩
  · intro e s he hd
    simp [decodeStage, he, hd]
  · intro e he hd
    simp [decodeStage, he, hd]
  · intro he
    simp only [decodeStage, he]
    by_cases hv : utf8Valid content
    · simp [pyDecode, utf8Strict, hv]
    · simp [pyDecode, utf8Strict, hv]

theorem decode_stage_witness :
    ((fun _ : List Nat => (none : Option String)) [0x41, 0xFF] = none) ∧
    decodeStage (fun _ => none) (fun _ _ => none) [0x41, 0xFF] =
      String.mk (utf8DecodeR [0x41, 0xFF]) :=
  ⟨rfl, (decode_stage_total_and_fallback _ _ _).2.2.2 rfl⟩

/-- C8: at the first file whose header plus body would push the running
total over a set budget `m`, with `remaining = m - total_chars`: if
`remaining` exceeds the header length the loop appends the header, then
exactly the first `remaining - len(header)` characters of the body, then
the fixed truncation notice, and sets `truncated`; otherwise it appends
only the fixed omission notice and sets `truncated`; in both cases it
stops, appending no further files (the result does not depend on the
remaining file list). -/
theorem budget_truncation_step (env : Env) (cfg : Config) (m : Int)
    (f : String) (rest : List String) (s : LoopState) (content : List Nat)
    (body header : String)
    (hmc : cfg.maxChars = some m) (hm : m ≠ 0)
    (hread : env.read f = .ok content)
    (hbody : body = processContent cfg.filterPatterns cfg.maxLines
      (decodeStage env.detect env.decodeOther content))
    (hheader : header = mkHeader f)
    (htrip : ((s.totalChars + (header.length + body.length) : Nat) : Int) > m) :
    (m - (s.totalChars : Int) > (header.length : Int) →
      (processFiles env cfg (f :: rest) s).output =
        s.output ++ header ++
          body.take ((m - (s.totalChars : Int)) - (header.length : Int)).toNat ++
          truncNotice ∧
      (processFiles env cfg (f :: rest) s).truncated = true) ∧
    (m - (s.totalChars : Int) ≤ (header.length : Int) →
      (processFiles env cfg (f :: rest) s).output = s.output ++ omitNotice ∧
      (processFiles env cfg (f :: rest) s).truncated = true) ∧
    (∀ rest2, processFiles env cfg (f :: rest) s =
      processFiles env cfg (f :: rest2) s) := by
  subst hbody hheader
  refine ⟨?_, ?_, ?_⟩
  · intro hrem
    simp only [processFiles, hread, hmc]
    rw [if_pos ⟨hm, htrip⟩, if_pos hrem]
    exact ⟨rfl, rfl⟩
  · intro hrem
    simp only [processFiles, hread, hmc]
    rw [if_pos ⟨hm, htrip⟩, if_neg (by omega)]
    exact ⟨rfl, rfl⟩
  · intro rest2
    simp only [processFiles, hread, hmc]
    rw [if_pos ⟨hm, htrip⟩]
    conv_rhs => rw [if_pos ⟨hm, htrip⟩]

/-- Archive with a single readable one-byte file `"a"`, used to
instantiate the budget theorems. -/
def envOneFile : Env :=
  { names := ["a"],
    read := fun _ => .ok [0x61],
    detect := fun _ => none,
    decodeOther := fun _ _ => none }

/-- Configuration with a 100-character budget and no patterns. -/
def cfgBudget100 : Config :=
  { maxChars := some 100, excludeExtensions := [], filterPatterns := [],
    maxLines := none }

theorem budget_truncation_step_witness :
    ((((initState.totalChars +
        ((mkHeader "a").length +
          (processContent cfgBudget100.filterPatterns cfgBudget100.maxLines
            (decodeStage envOneFile.detect envOneFile.decodeOther [0x61])).length) : Nat) : Int) >
        (100 : Int)) ∧
      (100 : Int) - (initState.totalChars : Int) ≤ ((mkHeader "a").length : Int)) ∧
    ((processFiles envOneFile cfgBudget100 ["a", "b"] initState).output =
        initState.output ++ omitNotice ∧
      (processFiles envOneFile cfgBudget100 ["a", "b"] initState).truncated = true) :=
  ⟨⟨by decide, by decide⟩,
   (budget_truncation_step envOneFile cfgBudget100 100 "a" ["b"] initState
      [0x61] _ _ rfl (by decide) rfl rfl rfl (by decide)).2.1 (by decide)⟩

theorem eqLine_length : eqLine.length = 48 := by decide

theorem mkHeader_length (path : String) :
    (mkHeader path).length = 105 + path.length := by
  have h1 : ("\nFile: " : String).length = 7 := by decide
  have h2 : ("\n" : String).length = 1 := by decide
  simp only [mkHeader, String.length_append, eqLine_length, h1, h2]
  omega

theorem processFiles_budget_bound (env : Env) (cfg : Config) (m : Int)
    (hmc : cfg.maxChars = some m) (hm : 0 < m) :
    ∀ (fs : List String) (s : LoopState),
      (s.totalChars : Int) ≤ m → s.processedChars = s.totalChars →
      ((processFiles env cfg fs s).processedChars : Int) ≤
        m + (truncNotice.length : Int) := by
  intro fs
  induction fs with
  | nil =>
    intro s h1 h2
    simp only [processFiles, h2]
    have : (0 : Int) ≤ (truncNotice.length : Int) := Int.natCast_nonneg _
    omega
  | cons f rest ih =>
    intro s h1 h2
    cases hread : env.read f with
    | error e =>
      simp only [processFiles, hread]
      exact ih _ h1 h2
    | ok content =>
      simp only [processFiles, hread, hmc]
      by_cases hc : m ≠ 0 ∧
          ((s.totalChars + ((mkHeader f).length +
            (processContent cfg.filterPatterns cfg.maxLines
              (decodeStage env.detect env.decodeOther content)).length) : Nat) : Int) > m
      · rw [if_pos hc]
        by_cases hrem : m - (s.totalChars : Int) > ((mkHeader f).length : Int)
        · rw [if_pos hrem]
          show ((s.processedChars + (mkHeader f).length +
            (m - (s.totalChars : Int) - ((mkHeader f).length : Int)).toNat : Nat) : Int) ≤
            m + (truncNotice.length : Int)
          have h3 : (0 : Int) ≤ m - (s.totalChars : Int) - ((mkHeader f).length : Int) := by
            omega
          rw [Nat.cast_add, Nat.cast_add, Int.toNat_of_nonneg h3]
          have : (0 : Int) ≤ (truncNotice.length : Int) := Int.natCast_nonneg _
          omega
        · rw [if_neg hrem]
          show ((s.processedChars : Nat) : Int) ≤ m + (truncNotice.length : Int)
          have : (0 : Int) ≤ (truncNotice.length : Int) := Int.natCast_nonneg _
          omega
      · rw [if_neg hc]
        refine ih _ ?_ ?_
        · show ((s.totalChars + ((mkHeader f).length + _) : Nat) : Int) ≤ m
          push_neg at hc
          have := hc (by omega)
          push_cast at this ⊢
          omega
        · show s.processedChars + _ = s.totalChars + _
          omega

theorem processFiles_trunc_100 (env : Env) (cfg : Config)
    (hmc : cfg.maxChars = some (100 : Int)) :
    ∀ (fs : List String) (s : LoopState), s.totalChars = 0 →
      (∃ f ∈ fs, (env.read f).isOk = true) →
      (processFiles env cfg fs s).truncated = true := by
  intro fs
  induction fs with
  | nil =>
    rintro s _ ⟨f, hf, _⟩
    exact absurd hf (List.not_mem_nil f)
  | cons f rest ih =>
    rintro s h0 ⟨g, hg, hok⟩
    cases hread : env.read f with
    | error e =>
      simp only [processFiles, hread]
      refine ih _ h0 ⟨g, ?_, hok⟩
      rcases List.mem_cons.mp hg with hgf | hgr
      · subst hgf
        rw [hread] at hok
        simp [Except.isOk, Except.toBool] at hok
      · exact hgr
    | ok content =>
      simp only [processFiles, hread, hmc]
      have hhl : ((mkHeader f).length : Int) = 105 + (f.length : Int) := by
        rw [mkHeader_length]; push_cast; ring
      rw [if_pos ⟨by norm_num, by rw [h0]; push_cast; omega⟩]
      rw [if_neg (by rw [h0]; push_cast; omega)]

/-- C3: with a set positive budget `m`, the processed portion of the
output (every header and body character appended, excluding the `"\n\n"`
separators and the notice strings) never exceeds `m` plus the length of
the literal truncation notice; and in particular with `m = 100`, where
no header can fit (headers are at least 105 characters), any archive
with at least one readable included file ends truncated with
`stats.truncated = true`. -/
theorem global_budget (env : Env) (cfg : Config) (m : Int)
    (hmc : cfg.maxChars = some m) :
    (0 < m → ((runState env cfg).processedChars : Int) ≤
      m + (truncNotice.length : Int)) ∧
    (m = 100 → (∃ f ∈ fileListOf env cfg, (env.read f).isOk = true) →
      (process_zip_to_llm_txt env cfg).2.2.truncated = true) := by
  constructor
  · intro hm
    exact processFiles_budget_bound env cfg m hmc hm _ initState
      (by simp only [initState]; omega) rfl
  · intro hm hex
    subst hm
    show (runState env cfg).truncated = true
    exact processFiles_trunc_100 env cfg hmc _ initState rfl hex

theorem global_budget_witness :
    (cfgBudget100.maxChars = some 100 ∧ (0 : Int) < 100 ∧
      ∃ f ∈ fileListOf envOneFile cfgBudget100,
        (envOneFile.read f).isOk = true) ∧
    ((runState envOneFile cfgBudget100).processedChars : Int) ≤
      100 + (truncNotice.length : Int) ∧
    (process_zip_to_llm_txt envOneFile cfgBudget100).2.2.truncated = true :=
  ⟨⟨rfl, by decide, by decide⟩,
   (global_budget envOneFile cfgBudget100 100 rfl).1 (by decide),
   (global_budget envOneFile cfgBudget100 100 rfl).2 rfl (by decide)⟩

theorem appendNormal_invariant (s : LoopState) (header body : String)
    (h1 : s.totalChars = s.appendedLens.sum)
    (h2 : s.totalChars + 2 * s.appendedLens.length ≤ s.output.length) :
    (appendNormal s header body).totalChars =
      (appendNormal s header body).appendedLens.sum ∧
    (appendNormal s header body).totalChars +
      2 * (appendNormal s header body).appendedLens.length ≤
      (appendNormal s header body).output.length := by
  constructor
  · simp [appendNormal, List.sum_append, h1]
  · have hnn : ("\n\n" : String).length = 2 := by decide
    simp only [appendNormal, String.length_append, List.length_append,
      List.length_cons, List.length_nil, hnn]
    omega

theorem processFiles_ghost_invariant (env : Env) (cfg : Config) :
    ∀ (fs : List String) (s : LoopState),
      s.totalChars = s.appendedLens.sum →
      s.totalChars + 2 * s.appendedLens.length ≤ s.output.length →
      (processFiles env cfg fs s).totalChars =
        (processFiles env cfg fs s).appendedLens.sum ∧
      (processFiles env cfg fs s).totalChars +
        2 * (processFiles env cfg fs s).appendedLens.length ≤
        (processFiles env cfg fs s).output.length := by
  intro fs
  induction fs with
  | nil =>
    intro s h1 h2
    simp only [processFiles]
    exact ⟨h1, h2⟩
  | cons f rest ih =>
    intro s h1 h2
    cases hread : env.read f with
    | error e =>
      simp only [processFiles, hread]
      exact ih _ h1 h2
    | ok content =>
      cases hmc : cfg.maxChars with
      | none =>
        simp only [processFiles, hread, hmc]
        exact ih _ (appendNormal_invariant s _ _ h1 h2).1
          (appendNormal_invariant s _ _ h1 h2).2
      | some m =>
        simp only [processFiles, hread, hmc]
        by_cases hc : m ≠ 0 ∧
            ((s.totalChars + ((mkHeader f).length +
              (processContent cfg.filterPatterns cfg.maxLines
                (decodeStage env.detect env.decodeOther content)).length) : Nat) : Int) > m
        · rw [if_pos hc]
          by_cases hrem : m - (s.totalChars : Int) > ((mkHeader f).length : Int)
          · rw [if_pos hrem]
            refine ⟨h1, ?_⟩
            show s.totalChars + 2 * s.appendedLens.length ≤
              (s.output ++ mkHeader f ++ _ ++ truncNotice).length
            simp only [String.length_append]
            omega
          · rw [if_neg hrem]
            refine ⟨h1, ?_⟩
            show s.totalChars + 2 * s.appendedLens.length ≤
              (s.output ++ omitNotice).length
            simp only [String.length_append]
            omega
        · rw [if_neg hc]
          exact ih _ (appendNormal_invariant s _ _ h1 h2).1
            (appendNormal_invariant s _ _ h1 h2).2

/-- C10: the reported `total_chars` counts exactly the
`len(header) + len(body)` contributions of the fully appended files (the
ghost list `appendedLens` records one entry per fully appended file):
the two-character separators written after each appended file and the
notice strings are not counted, so the output is at least `total_chars`
plus two characters per appended file, and whenever at least one file
was appended `total_chars` is strictly less than the output length. -/
theorem total_chars_counts_appended_only (env : Env) (cfg : Config) :
    (process_zip_to_llm_txt env cfg).2.2.total_chars =
      (runState env cfg).appendedLens.sum ∧
    (process_zip_to_llm_txt env cfg).2.2.total_chars +
      2 * (runState env cfg).appendedLens.length ≤
      (process_zip_to_llm_txt env cfg).2.1.length ∧
    ((runState env cfg).appendedLens ≠ [] →
      (process_zip_to_llm_txt env cfg).2.2.total_chars <
        (process_zip_to_llm_txt env cfg).2.1.length) := by
  have h : (runState env cfg).totalChars = (runState env cfg).appendedLens.sum ∧
      (runState env cfg).totalChars + 2 * (runState env cfg).appendedLens.length ≤
        (runState env cfg).output.length :=
    processFiles_ghost_invariant env cfg (fileListOf env cfg) initState
      (by simp [initState]) (by simp [initState])
  refine ⟨h.1, h.2, ?_⟩
  intro hne
  have hlen : 0 < (runState env cfg).appendedLens.length :=
    List.length_pos.mpr hne
  have h2 := h.2
  show (runState env cfg).totalChars < (runState env cfg).output.length
  omega

/-- Configuration with no budget, no exclusions and no patterns. -/
def cfgNoBudget : Config :=
  { maxChars := none, excludeExtensions := [], filterPatterns := [],
    maxLines := none }

theorem total_chars_witness :
    (runState envOneFile cfgNoBudget).appendedLens ≠ [] ∧
    (process_zip_to_llm_txt envOneFile cfgNoBudget).2.2.total_chars <
      (process_zip_to_llm_txt envOneFile cfgNoBudget).2.1.length :=
  ⟨by decide,
   (total_chars_counts_appended_only envOneFile cfgNoBudget).2.2 (by decide)⟩
